import Mathlib

/-!
Shallow embedding of the core of `estafette-extension-docker` (Go) in Lean 4,
together with theorems checking the natural-language specification against it.

Strings are modelled as `List Char`; Go code that calls external processes is
modelled by pure functions that compute the list of commands issued.
-/

namespace EstafetteDocker

/-! ## Tag sanitizer (`tidyTag` in main.go)

The Go source is:

  tag = regexp.MustCompile(`[^a-zA-Z0-9_.\-]+`).ReplaceAllString(tag, "-")
  tag = regexp.MustCompile(`$[_.\-]+`).ReplaceAllString(tag, "")
  if len(tag) > 128 { tag = tag[:128] }
-/

/-- Membership in the character class `[a-zA-Z0-9_.-]` of the first
`tidyTag` regex (ASCII ranges, as in the Go pattern). -/
def isAllowedTagChar (c : Char) : Bool :=
  (97 ≤ c.toNat && c.toNat ≤ 122) ||
  (65 ≤ c.toNat && c.toNat ≤ 90) ||
  (48 ≤ c.toNat && c.toNat ≤ 57) ||
  c == '_' || c == '.' || c == '-'

/-- Worker for `ReplaceAllString` of `[^a-zA-Z0-9_.\-]+` with `-`: each
maximal run of disallowed characters becomes a single dash.  The Boolean
argument records whether we are currently inside such a run (the dash for
it has already been emitted). -/
def replaceDisallowedRunsAux : Bool → List Char → List Char
  | _, [] => []
  | inRun, c :: rest =>
    if isAllowedTagChar c then c :: replaceDisallowedRunsAux false rest
    else if inRun then replaceDisallowedRunsAux true rest
    else '-' :: replaceDisallowedRunsAux true rest

/-- `regexp.MustCompile` of the class complement, `ReplaceAllString _ "-"`. -/
def replaceDisallowedRuns (tag : List Char) : List Char :=
  replaceDisallowedRunsAux false tag

/-- The second replacement in `tidyTag` uses the pattern `$[_.\-]+`.  In Go
(RE2, no multiline flag) `$` only matches at the end of the text, and no
character can follow the end of the text, so this pattern has no match in
any string and `ReplaceAllString` returns its input unchanged.  The intent
stated by the comment in the source ("A tag name may not start with a
period or a dash") is not what the code does. -/
def stripLeadingDisallowed (tag : List Char) : List Char := tag

/-- `tidyTag` from main.go: replace disallowed runs, apply the (vacuous)
leading-character strip, truncate to 128 characters.  Go truncates bytes,
but after the first replacement every character is single-byte ASCII, so
character truncation coincides. -/
def tidyTag (tag : List Char) : List Char :=
  (stripLeadingDisallowed (replaceDisallowedRuns tag)).take 128

theorem mem_replaceDisallowedRunsAux (b : Bool) (l : List Char) :
    ∀ c ∈ replaceDisallowedRunsAux b l, isAllowedTagChar c = true := by
  induction l generalizing b with
  | nil => intro c hc; simp [replaceDisallowedRunsAux] at hc
  | cons a t ih =>
    intro c hc
    by_cases ha : isAllowedTagChar a = true
    · simp only [replaceDisallowedRunsAux, if_pos ha, List.mem_cons] at hc
      rcases hc with rfl | hc
      · exact ha
      · exact ih false c hc
    · simp only [replaceDisallowedRunsAux, if_neg ha] at hc
      cases b with
      | true => exact ih true c hc
      | false =>
        simp only [Bool.false_eq_true, if_false, List.mem_cons] at hc
        rcases hc with rfl | hc
        · decide
        · exact ih true c hc

theorem replaceDisallowedRunsAux_of_allowed (b : Bool) (l : List Char)
    (h : ∀ c ∈ l, isAllowedTagChar c = true) :
    replaceDisallowedRunsAux b l = l := by
  induction l generalizing b with
  | nil => rfl
  | cons a t ih =>
    have ha : isAllowedTagChar a = true := h a (List.mem_cons_self a t)
    simp only [replaceDisallowedRunsAux, if_pos ha]
    exact congrArg (a :: ·) (ih false (fun c hc => h c (List.mem_cons_of_mem a hc)))

/-- C5: the tag sanitizer is idempotent and its output never exceeds 128
characters: for every string `s`, `tidyTag (tidyTag s) = tidyTag s` and
`(tidyTag s).length ≤ 128`. -/
theorem tidyTag_idempotent_and_bounded (s : List Char) :
    tidyTag (tidyTag s) = tidyTag s ∧ (tidyTag s).length ≤ 128 := by
  constructor
  · have hall : ∀ c ∈ tidyTag s, isAllowedTagChar c = true := by
      intro c hc
      have : c ∈ replaceDisallowedRuns s := by
        simpa [tidyTag, stripLeadingDisallowed] using List.take_subset 128 _ hc
      exact mem_replaceDisallowedRunsAux false s c this
    have hfix : replaceDisallowedRuns (tidyTag s) = tidyTag s :=
      replaceDisallowedRunsAux_of_allowed false _ hall
    simp only [tidyTag, stripLeadingDisallowed] at hfix ⊢
    rw [hfix]
    simp [tidyTag, List.take_take]
  · simp only [tidyTag, stripLeadingDisallowed, List.length_take]
    exact min_le_left _ _

/-- C6 (code bug): the leading `.`/`-` strip never happens.  The strip regex
`$[_.\-]+` cannot match (nothing follows the end-of-text anchor), so an
input that starts with a dash or a period is returned unchanged, contrary
to the comment in the source and to the spec's stated algorithm. -/
theorem tidyTag_keeps_leading_dash_and_period :
    tidyTag ('-' :: "foo".toList) = '-' :: "foo".toList ∧
    tidyTag ('.' :: "bar".toList) = '.' :: "bar".toList ∧
    (tidyTag ('-' :: "foo".toList)).head? = some '-' := by
  refine ⟨by decide, by decide, by decide⟩

/-! ## Credential records (`containerRegistryCredentials.go`) -/

/-- `ContainerRegistryCredentialsAdditionalProperties` from the source:
the non-standard fields of a container-registry credential. -/
structure ContainerRegistryCredentialsAdditionalProperties where
  repository : List Char
  username : List Char
  password : List Char
  allowedPipelinesToPush : List Char
  trivyVulnerabilityDBGCSBucket : List Char
deriving DecidableEq, Repr

/-- `ContainerRegistryCredentials` from the source. -/
structure ContainerRegistryCredentials where
  name : List Char
  credentialType : List Char
  additionalProperties : ContainerRegistryCredentialsAdditionalProperties
deriving DecidableEq, Repr

/-! ## Credential resolver (`getCredentialsForContainers` in main.go) -/

/-- Worker for `strings.Split(s, "/")`: `acc` holds the (reversed) current
segment. -/
def splitOnSlashAux : List Char → List Char → List (List Char)
  | acc, [] => [acc.reverse]
  | acc, c :: rest =>
    if c = '/' then acc.reverse :: splitOnSlashAux [] rest
    else splitOnSlashAux (c :: acc) rest

/-- `strings.Split(s, "/")` (single-character separator). -/
def splitOnSlash (s : List Char) : List (List Char) :=
  splitOnSlashAux [] s

/-- `strings.Join(parts, "/")`. -/
def joinWithSlash : List (List Char) → List Char
  | [] => []
  | [x] => x
  | x :: xs => x ++ '/' :: joinWithSlash xs

/-- The repository portion of a container image reference as the source
computes it: split on `/`, drop the last segment, join with `/` again. -/
def containerRepo (containerImage : List Char) : List Char :=
  joinWithSlash (splitOnSlash containerImage).dropLast

/-- Worker for `getCredentialsForContainers`: fold over the container
images, keeping the Go map as an association list in insertion order.  An
image whose repository portion is already a key is skipped; otherwise the
first credential whose `Repository` field equals the repository portion is
inserted under that field. -/
def getCredentialsForContainersAux (credentials : List ContainerRegistryCredentials) :
    List (List Char) → List (List Char × ContainerRegistryCredentials) →
    List (List Char × ContainerRegistryCredentials)
  | [], acc => acc
  | ci :: rest, acc =>
    if acc.any (fun e => e.1 = containerRepo ci) then
      getCredentialsForContainersAux credentials rest acc
    else
      match credentials.find? (fun c => containerRepo ci = c.additionalProperties.repository) with
      | some c =>
        getCredentialsForContainersAux credentials rest
          (acc ++ [(c.additionalProperties.repository, c)])
      | none => getCredentialsForContainersAux credentials rest acc

/-- `getCredentialsForContainers` from main.go: map from repository string
to the matching credential, deduplicated by repository. -/
def getCredentialsForContainers (credentials : List ContainerRegistryCredentials)
    (containerImages : List (List Char)) :
    List (List Char × ContainerRegistryCredentials) :=
  getCredentialsForContainersAux credentials containerImages []

/-! ## Push allow-list (`isAllowedPipelineForPush`) and login (`loginIfRequired`) -/

/-- The result of `regexp.Match(pattern, data)` for the Go standard
library, abstracted: `none` models the error return (the pattern fails to
compile), in which case Go also returns `isMatch = false`. -/
abbrev RegexMatcher := List Char → List Char → Option Bool

/-- ASCII approximation of `unicode.IsSpace`, used by `strings.TrimSpace`. -/
def isGoWhitespace (c : Char) : Bool :=
  c == ' ' || c == '\t' || c == '\n' || c == '\x0b' || c == '\x0c' || c == '\r'

/-- `strings.TrimSpace`. -/
def trimSpace (s : List Char) : List Char :=
  ((s.dropWhile isGoWhitespace).reverse.dropWhile isGoWhitespace).reverse

/-- The pattern `fmt.Sprintf("^%v$", strings.TrimSpace(p))` built by
`isAllowedPipelineForPush`. -/
def anchoredPushPattern (p : List Char) : List Char :=
  '^' :: trimSpace p ++ ['$']

/-- `isAllowedPipelineForPush` from main.go, relative to a regex matcher:
an empty allow-list admits every pipeline; otherwise the anchored pattern
is matched against the full repository path, and the error return of
`regexp.Match` is discarded (`isMatch, _ :=`), leaving `false`. -/
def isAllowedPipelineForPush (m : RegexMatcher)
    (credential : ContainerRegistryCredentials) (fullRepositoryPath : List Char) : Bool :=
  if credential.additionalProperties.allowedPipelinesToPush = [] then true
  else
    (m (anchoredPushPattern credential.additionalProperties.allowedPipelinesToPush)
      fullRepositoryPath).getD false

/-- One `docker login` invocation assembled by `loginIfRequired`. -/
structure LoginCommand where
  username : List Char
  password : List Char
  server : Option (List Char)
deriving DecidableEq, Repr

/-- The `docker login` arguments for one credential: the server argument is
added only when the repository contains a `/` (its first segment). -/
def loginCommandFor (c : ContainerRegistryCredentials) : LoginCommand :=
  { username := c.additionalProperties.username
    password := c.additionalProperties.password
    server :=
      match splitOnSlash c.additionalProperties.repository with
      | s :: _ :: _ => some s
      | _ => none }

/-- The loop body of `loginIfRequired` over the filtered credentials map:
in push mode a credential whose allow-list rejects the pipeline is skipped
with `continue`; every other credential produces a login command. -/
def loginLoop (m : RegexMatcher) (push : Bool) (fullRepositoryPath : List Char) :
    List (List Char × ContainerRegistryCredentials) → List LoginCommand
  | [] => []
  | (_, c) :: rest =>
    if push && !isAllowedPipelineForPush m c fullRepositoryPath then
      loginLoop m push fullRepositoryPath rest
    else
      loginCommandFor c :: loginLoop m push fullRepositoryPath rest

/-- `loginIfRequired` from main.go as the list of `docker login` commands
it runs: filter the credentials by the container images, then log in to
each, skipping disallowed pushes. -/
def loginIfRequired (m : RegexMatcher) (credentials : List ContainerRegistryCredentials)
    (push : Bool) (fullRepositoryPath : List Char)
    (containerImages : List (List Char)) : List LoginCommand :=
  loginLoop m push fullRepositoryPath (getCredentialsForContainers credentials containerImages)

/-! ## Dockerfile stage extraction (`getFromImagePathsFromDockerfile`)

The source matches the RE2 pattern

  (?mi)^\s*FROM\s+([^\s]+)(\s+AS\s+([^\s]+))?\s*$

(with `\s*` after `^`; `(?m)` makes `^`/`$` match at line boundaries and
`(?i)` folds case) using `FindAllStringSubmatch`.  The functions below
implement exactly this pattern's leftmost matches by hand.  Greedy
sub-matching is deterministic here because every quantified class is
bracketed by a class of the complementary characters; the only backtracking
RE2 performs is dropping the optional `AS` group when the tail fails, and
shortening the trailing `\s*` to end just before the last newline of a
whitespace run so that `$` can match. -/

/-- RE2 `\s`, i.e. the class of `\t`, `\n`, `\f`, `\r` and space. -/
def isRegexSpace (c : Char) : Bool :=
  c == ' ' || c == '\t' || c == '\n' || c == '\x0c' || c == '\r'

/-- Case-insensitive (ASCII fold, as the pattern text is ASCII) literal
match: returns the remaining input after the literal. -/
def dropCaseInsensitive : List Char → List Char → Option (List Char)
  | [], s => some s
  | _ :: _, [] => none
  | p :: ps, c :: cs =>
    if p.toLower = c.toLower then dropCaseInsensitive ps cs else none

/-- One `FROM` stage as the source's `fromImage` struct: the image path,
the stage alias (`""` when the `AS` group is absent) and the
official-Docker-Hub flag. -/
structure FromImage where
  imagePath : List Char
  stageName : List Char
  isOfficialDockerHubImage : Bool
deriving DecidableEq, Repr

/-- Builds the `fromImage` record exactly as the source does:
`strings.Count(image, "/") == 0 || strings.Contains(image, "$")`. -/
def mkFromImage (image stageName : List Char) : FromImage :=
  { imagePath := image
    stageName := stageName
    isOfficialDockerHubImage := (image.count '/' == 0) || image.contains '$' }

/-- Index of the last newline in a list, if any (used to place the `$`
anchor inside a trailing whitespace run). -/
def lastNewlineIdx : List Char → Option Nat
  | [] => none
  | c :: rest =>
    match lastNewlineIdx rest with
    | some k => some (k + 1)
    | none => if c = '\n' then some 0 else none

/-- Matches the tail `\s*$` of the pattern at `s`; on success returns the
unconsumed input after the match end (`$` is multiline: it holds at the end
of the text or just before a `\n`, and greediness picks the last newline of
the whitespace run). -/
def matchTailSpace (s : List Char) : Option (List Char) :=
  let w := s.takeWhile isRegexSpace
  if s.drop w.length = [] then some []
  else
    match lastNewlineIdx w with
    | some k => some (s.drop k)
    | none => none

/-- Matches the optional group `\s+AS\s+([^\s]+)`; on success returns the
alias and the unconsumed input. -/
def matchAsGroup (s : List Char) : Option (List Char × List Char) :=
  let w := s.takeWhile isRegexSpace
  if w = [] then none
  else
    match dropCaseInsensitive ['a', 's'] (s.drop w.length) with
    | none => none
    | some s2 =>
      let w2 := s2.takeWhile isRegexSpace
      if w2 = [] then none
      else
        let s3 := s2.drop w2.length
        let aliasName := s3.takeWhile (fun c => !isRegexSpace c)
        if aliasName = [] then none else some (aliasName, s3.drop aliasName.length)

/-- Attempts the whole pattern at a position where `^` holds; on success
returns the parsed stage and the unconsumed input after the match. -/
def matchFromLine (s : List Char) : Option (FromImage × List Char) :=
  let s1 := s.dropWhile isRegexSpace
  match dropCaseInsensitive ['f', 'r', 'o', 'm'] s1 with
  | none => none
  | some s2 =>
    let w := s2.takeWhile isRegexSpace
    if w = [] then none
    else
      let s3 := s2.drop w.length
      let image := s3.takeWhile (fun c => !isRegexSpace c)
      if image = [] then none
      else
        let s4 := s3.drop image.length
        match matchAsGroup s4 with
        | some (aliasName, s7) =>
          match matchTailSpace s7 with
          | some rest => some (mkFromImage image aliasName, rest)
          | none =>
            match matchTailSpace s4 with
            | some rest => some (mkFromImage image [], rest)
            | none => none
        | none =>
          match matchTailSpace s4 with
          | some rest => some (mkFromImage image [], rest)
          | none => none

/-- `FindAllStringSubmatch` scan: try the pattern at every position where
`^` holds (position 0 and after each newline), left to right, resuming
after each match.  The fuel argument only bounds the recursion; every step
strictly shrinks the input (a successful match consumes at least the
literal `FROM` plus a space and an image character), so a fuel of
`length + 1` never runs out. -/
def scanStagesAux : Nat → Bool → List Char → List FromImage
  | 0, _, _ => []
  | _ + 1, _, [] => []
  | fuel + 1, atLineStart, c :: rest =>
    if atLineStart then
      match matchFromLine (c :: rest) with
      | some (st, rest2) => st :: scanStagesAux fuel false rest2
      | none => scanStagesAux fuel (c == '\n') rest
    else scanStagesAux fuel (c == '\n') rest

/-- `getFromImagePathsFromDockerfile` from main.go (the error return is
always `nil` in the source and is omitted). -/
def getFromImagePathsFromDockerfile (dockerfileContent : List Char) : List FromImage :=
  scanStagesAux (dockerfileContent.length + 1) true dockerfileContent

/-- The byte-order-mark trim `strings.TrimPrefix(sourceDockerfile, BOM)` performed by the build
action right after reading the Dockerfile. -/
def trimBOM (s : List Char) : List Char :=
  match s with
  | c :: rest => if c = '\uFEFF' then rest else c :: rest
  | [] => []

/-! ## Vulnerability gate (build action, main.go) -/

/-- `strings.ToUpper` for the ASCII severity words. -/
def asciiToUpper (s : List Char) : List Char :=
  s.map Char.toUpper

/-- The severity filter the build action passes to trivy: the `switch` on
`strings.ToUpper(*minimumSeverityToFail)` with default
`UNKNOWN,LOW,MEDIUM,HIGH,CRITICAL`. -/
def severityArgument (minimumSeverityToFail : List Char) : List Char :=
  let v := asciiToUpper minimumSeverityToFail
  if v = "UNKNOWN".toList then "UNKNOWN,LOW,MEDIUM,HIGH,CRITICAL".toList
  else if v = "LOW".toList then "LOW,MEDIUM,HIGH,CRITICAL".toList
  else if v = "MEDIUM".toList then "MEDIUM,HIGH,CRITICAL".toList
  else if v = "HIGH".toList then "HIGH,CRITICAL".toList
  else if v = "CRITICAL".toList then "CRITICAL".toList
  else "UNKNOWN,LOW,MEDIUM,HIGH,CRITICAL".toList

/-- The argument list of the trivy invocation in the build action.  The
`--exit-code 15` argument makes trivy exit with status 15 when it finds
vulnerabilities at the filtered severities. -/
def trivyScanArgs (severityArg tmpfileName : List Char) : List (List Char) :=
  ["--cache-dir".toList, "/trivy-cache".toList, "image".toList,
   "--severity".toList, severityArg,
   "--light".toList, "--skip-update".toList, "--no-progress".toList,
   "--exit-code".toList, "15".toList, "--ignore-unfixed".toList,
   "--input".toList, tmpfileName]

/-- Outcome of the build action after the trivy scan. -/
inductive ScanOutcome where
  | passed
  | warned
  | failed
deriving DecidableEq, Repr

/-- ASCII `strings.EqualFold` (the compared literal is ASCII). -/
def asciiEqualFold (a b : List Char) : Bool :=
  a.map Char.toLower == b.map Char.toLower

/-- The exit-code policy after the trivy scan: no error passes, an error
whose message folds equal to `exit status 1` (the tolerated unknown-OS
defect) is only warned about, and every other error is fatal. -/
def trivyExitPolicy (scanError : Option (List Char)) : ScanOutcome :=
  match scanError with
  | none => ScanOutcome.passed
  | some msg =>
    if asciiEqualFold msg "exit status 1".toList then ScanOutcome.warned
    else ScanOutcome.failed

/-! ## Tag and push sequences of the build, push and tag actions

Each action's external `docker tag` / `docker push` calls are modelled by
the list of `(repository, tag)` pairs they produce, in order. -/

/-- The additional-tags loop of the push action for one repository `r`:
a tag is skipped exactly when `r == repositoriesSlice[0] && t ==
estafetteBuildVersionAsTag`. -/
def pushActionAdditionalTags (repositoriesSlice tagsSlice : List (List Char))
    (versionTag r : List Char) : List (List Char) :=
  tagsSlice.filter (fun t => !(r = repositoriesSlice.headD [] ∧ t = versionTag : Bool))

/-- The `(repository, tag)` pairs pushed by the push action: per
repository, the version tag when `pushVersionTag` is set, then the
additional tags that survive the skip. -/
def pushActionPushedTags (repositoriesSlice tagsSlice : List (List Char))
    (versionTag : List Char) (pushVersionTag : Bool) : List (List Char × List Char) :=
  repositoriesSlice.flatMap (fun r =>
    (if pushVersionTag then [(r, versionTag)] else []) ++
    (pushActionAdditionalTags repositoriesSlice tagsSlice versionTag r).map (fun t => (r, t)))

/-- The additional-tags part of the final-layer `--tag` assembly of the
build action: a tag is skipped exactly when `r == repositoriesSlice[0] &&
(t == estafetteBuildVersionAsTag || t == dockerLayerCachingTag)`. -/
def buildActionAdditionalTags (repositoriesSlice tagsSlice : List (List Char))
    (versionTag cacheTag r : List Char) : List (List Char) :=
  tagsSlice.filter
    (fun t => !(r = repositoriesSlice.headD [] ∧ (t = versionTag ∨ t = cacheTag) : Bool))

/-- The `(repository, tag)` pairs the build action passes as `--tag`
arguments for the final layer. -/
def buildActionFinalTags (repositoriesSlice tagsSlice : List (List Char))
    (versionTag cacheTag : List Char) : List (List Char × List Char) :=
  repositoriesSlice.flatMap (fun r =>
    (r, versionTag) ::
    (buildActionAdditionalTags repositoriesSlice tagsSlice versionTag cacheTag r).map
      (fun t => (r, t)))

/-- The `(repository, tag)` pairs pushed by the tag action: the first
repository only receives the additional tags (its version tag is the
pulled source); every later repository receives the version tag and then
every additional tag, with no skip at all. -/
def tagActionPushedTags (repositoriesSlice tagsSlice : List (List Char))
    (versionTag : List Char) : List (List Char × List Char) :=
  match repositoriesSlice with
  | [] => []
  | r0 :: rest =>
    tagsSlice.map (fun t => (r0, t)) ++
    rest.flatMap (fun r => (r, versionTag) :: tagsSlice.map (fun t => (r, t)))

/-! ## Concrete fixtures (mirroring main_test.go) -/

/-- The `container-registry-estafette` credential of the test suite. -/
def estafetteCredential : ContainerRegistryCredentials :=
  { name := "container-registry-estafette".toList
    credentialType := "container-registry".toList
    additionalProperties :=
      { repository := "estafette".toList
        username := "user".toList
        password := "password".toList
        allowedPipelinesToPush := []
        trivyVulnerabilityDBGCSBucket := [] } }

/-- The `container-registry-extensions` credential of the test suite. -/
def extensionsCredential : ContainerRegistryCredentials :=
  { name := "container-registry-extensions".toList
    credentialType := "container-registry".toList
    additionalProperties :=
      { repository := "extensions".toList
        username := "user".toList
        password := "password".toList
        allowedPipelinesToPush := []
        trivyVulnerabilityDBGCSBucket := [] } }

/-- A credential whose push allow-list restricts the pushing pipeline. -/
def restrictedCredential : ContainerRegistryCredentials :=
  { name := "container-registry-restricted".toList
    credentialType := "container-registry".toList
    additionalProperties :=
      { repository := "estafette".toList
        username := "user".toList
        password := "password".toList
        allowedPipelinesToPush := "github.com/estafette/repo".toList
        trivyVulnerabilityDBGCSBucket := [] } }

/-- A credential whose push allow-list is not a valid regular expression. -/
def badPatternCredential : ContainerRegistryCredentials :=
  { name := "container-registry-bad".toList
    credentialType := "container-registry".toList
    additionalProperties :=
      { repository := "estafette".toList
        username := "user".toList
        password := "password".toList
        allowedPipelinesToPush := "([".toList
        trivyVulnerabilityDBGCSBucket := [] } }

/-- The full pipeline path `gitSource/gitOwner/gitName` used in the
examples. -/
def fullPath0 : List Char := "github.com/estafette/repo".toList

/-- A concrete regex matcher that matches exactly when the pattern text
equals the input text (enough to exercise the allow-list plumbing). -/
def literalMatcher : RegexMatcher := fun pat s => some (pat == s)

/-- A concrete matcher that always reports a compile error, as
`regexp.Match` does for every input once the pattern is invalid. -/
def alwaysErrorMatcher : RegexMatcher := fun _ _ => none

/-! ## C1: credential resolution -/

theorem getCredentialsForContainersAux_sound
    (credentials : List ContainerRegistryCredentials) :
    ∀ (imgs : List (List Char)) (acc : List (List Char × ContainerRegistryCredentials))
      (p : List Char) (c : ContainerRegistryCredentials),
      (p, c) ∈ getCredentialsForContainersAux credentials imgs acc →
      (p, c) ∈ acc ∨
        (c ∈ credentials ∧ c.additionalProperties.repository = p ∧
          ∃ ci ∈ imgs, containerRepo ci = p) := by
  intro imgs
  induction imgs with
  | nil =>
    intro acc p c h
    exact Or.inl h
  | cons ci rest ih =>
    intro acc p c h
    simp only [getCredentialsForContainersAux] at h
    split at h
    · rcases ih _ _ _ h with h' | ⟨h1, h2, ci', hci', h3⟩
      · exact Or.inl h'
      · exact Or.inr ⟨h1, h2, ci', List.mem_cons_of_mem ci hci', h3⟩
    · split at h
      case h_1 c0 heq =>
        rcases ih _ _ _ h with h' | ⟨h1, h2, ci', hci', h3⟩
        · rcases List.mem_append.mp h' with h'' | h''
          · exact Or.inl h''
          · have hpc : p = c0.additionalProperties.repository ∧ c = c0 := by
              simpa [Prod.ext_iff] using List.mem_singleton.mp h''
            obtain ⟨hp, hc⟩ := hpc
            have hmem : c0 ∈ credentials := List.mem_of_find?_eq_some heq
            have hpred := List.find?_some heq
            have hrepo : containerRepo ci = c0.additionalProperties.repository := by
              simpa using hpred
            subst hp hc
            exact Or.inr ⟨hmem, rfl, ci, List.mem_cons_self ci rest, hrepo⟩
        · exact Or.inr ⟨h1, h2, ci', List.mem_cons_of_mem ci hci', h3⟩
      case h_2 =>
        rcases ih _ _ _ h with h' | ⟨h1, h2, ci', hci', h3⟩
        · exact Or.inl h'
        · exact Or.inr ⟨h1, h2, ci', List.mem_cons_of_mem ci hci', h3⟩

/-- C1: credential resolution matches by exact equality between the
credential's `Repository` field and the image's repository portion, never
by substring.  Part 1: every resolved entry's key is some image's exact
repository portion and equals the credential's repository field.  Part 2:
`["extensions/docker:stable"]` against the `estafette` and `extensions`
credentials yields exactly the `extensions` credential.  Part 3: the
`estafette` credential matches no image under `estafette-internal/...`.
Part 4: two images under the same repository yield one deduplicated
entry. -/
theorem getCredentialsForContainers_prefix_exact :
    (∀ (credentials : List ContainerRegistryCredentials) (imgs : List (List Char))
        (p : List Char) (c : ContainerRegistryCredentials),
        (p, c) ∈ getCredentialsForContainers credentials imgs →
        c ∈ credentials ∧ c.additionalProperties.repository = p ∧
          ∃ ci ∈ imgs, containerRepo ci = p) ∧
    getCredentialsForContainers [estafetteCredential, extensionsCredential]
        ["extensions/docker:stable".toList] =
      [("extensions".toList, extensionsCredential)] ∧
    (containerRepo "estafette-internal/foo:1.0".toList ≠ "estafette".toList ∧
      getCredentialsForContainers [estafetteCredential]
        ["estafette-internal/foo:1.0".toList] = []) ∧
    getCredentialsForContainers [estafetteCredential]
        ["estafette/estafette-ci-web:1.0.0".toList, "estafette/estafette-ci-api:1.0.0".toList] =
      [("estafette".toList, estafetteCredential)] := by
  refine ⟨?_, by decide, ⟨by decide, by decide⟩, by decide⟩
  intro credentials imgs p c h
  rcases getCredentialsForContainersAux_sound credentials imgs [] p c h with h' | h'
  · simp at h'
  · exact h'

/-- Witness for C1, instantiating part 1 at the `extensions` example. -/
theorem getCredentialsForContainers_prefix_exact_witness :
    extensionsCredential ∈ [estafetteCredential, extensionsCredential] ∧
    extensionsCredential.additionalProperties.repository = "extensions".toList ∧
    ∃ ci ∈ ["extensions/docker:stable".toList], containerRepo ci = "extensions".toList :=
  getCredentialsForContainers_prefix_exact.1
    [estafetteCredential, extensionsCredential] ["extensions/docker:stable".toList]
    "extensions".toList extensionsCredential (by decide)

/-! ## C2: push allow-list and login skipping -/

theorem loginLoop_append (m : RegexMatcher) (push : Bool) (path : List Char)
    (l1 l2 : List (List Char × ContainerRegistryCredentials)) :
    loginLoop m push path (l1 ++ l2) =
      loginLoop m push path l1 ++ loginLoop m push path l2 := by
  induction l1 with
  | nil => rfl
  | cons e rest ih =>
    obtain ⟨k, c⟩ := e
    simp only [List.cons_append, loginLoop]
    split
    · exact ih
    · simp [ih]

/-- C2: `isAllowedPipelineForPush` returns true for every pipeline path
when the allow-list pattern is empty; with a non-empty pattern it returns
true exactly when the anchored pattern (caret + trimmed pattern + dollar)
matches the full pipeline path; and in push mode the login loop simply
skips a disallowed credential and logs in to all the remaining allowed
ones (it filters, it never fails). -/
theorem isAllowedPipelineForPush_spec :
    (∀ (m : RegexMatcher) (cred : ContainerRegistryCredentials) (path : List Char),
        cred.additionalProperties.allowedPipelinesToPush = [] →
        isAllowedPipelineForPush m cred path = true) ∧
    (∀ (m : RegexMatcher) (cred : ContainerRegistryCredentials) (path : List Char),
        cred.additionalProperties.allowedPipelinesToPush ≠ [] →
        (isAllowedPipelineForPush m cred path = true ↔
          m (anchoredPushPattern cred.additionalProperties.allowedPipelinesToPush) path =
            some true)) ∧
    (∀ (m : RegexMatcher) (path : List Char)
        (entries : List (List Char × ContainerRegistryCredentials)),
        loginLoop m true path entries =
          (entries.filter (fun e => isAllowedPipelineForPush m e.2 path)).map
            (fun e => loginCommandFor e.2)) := by
  refine ⟨?_, ?_, ?_⟩
  · intro m cred path h
    simp [isAllowedPipelineForPush, h]
  · intro m cred path h
    simp only [isAllowedPipelineForPush, if_neg h]
    rcases hm : m (anchoredPushPattern cred.additionalProperties.allowedPipelinesToPush) path
      with _ | b
    · simp
    · cases b <;> simp
  · intro m path entries
    induction entries with
    | nil => rfl
    | cons e rest ih =>
      obtain ⟨k, c⟩ := e
      by_cases hc : isAllowedPipelineForPush m c path = true
      · simp [loginLoop, hc, ih, List.filter_cons]
      · have hc' : isAllowedPipelineForPush m c path = false :=
          Bool.eq_false_iff.mpr hc
        simp [loginLoop, hc', ih, List.filter_cons]

/-- Witness for C2 at concrete inputs: an empty allow-list admits the
pipeline, the restricted credential reduces to a concrete anchored match,
and the login loop over one disallowed and one allowed credential is the
corresponding filter. -/
theorem isAllowedPipelineForPush_spec_witness :
    isAllowedPipelineForPush literalMatcher estafetteCredential fullPath0 = true ∧
    (isAllowedPipelineForPush literalMatcher restrictedCredential fullPath0 = true ↔
      literalMatcher
          (anchoredPushPattern restrictedCredential.additionalProperties.allowedPipelinesToPush)
          fullPath0 = some true) ∧
    loginLoop literalMatcher true fullPath0
        [("estafette".toList, restrictedCredential), ("extensions".toList, extensionsCredential)] =
      (([("estafette".toList, restrictedCredential),
         ("extensions".toList, extensionsCredential)]).filter
          (fun e => isAllowedPipelineForPush literalMatcher e.2 fullPath0)).map
        (fun e => loginCommandFor e.2) :=
  ⟨isAllowedPipelineForPush_spec.1 literalMatcher estafetteCredential fullPath0 rfl,
   isAllowedPipelineForPush_spec.2.1 literalMatcher restrictedCredential fullPath0 (by decide),
   isAllowedPipelineForPush_spec.2.2 literalMatcher fullPath0 _⟩

/-! ## C10: invalid allow-list patterns -/

/-- C10: when a credential's push allow-list pattern is non-empty but does
not compile as a regular expression (so `regexp.Match` errors on every
input and the error is discarded), `isAllowedPipelineForPush` is false for
every pipeline path, and a push-mode login silently skips that credential
while the surrounding credentials still log in. -/
theorem invalidPatternSkipsLogin :
    ∀ (m : RegexMatcher) (cred : ContainerRegistryCredentials) (path k : List Char)
      (pre post : List (List Char × ContainerRegistryCredentials)),
      cred.additionalProperties.allowedPipelinesToPush ≠ [] →
      (∀ s, m (anchoredPushPattern cred.additionalProperties.allowedPipelinesToPush) s = none) →
      isAllowedPipelineForPush m cred path = false ∧
      loginLoop m true path (pre ++ (k, cred) :: post) =
        loginLoop m true path pre ++ loginLoop m true path post := by
  intro m cred path k pre post h1 h2
  have hfalse : isAllowedPipelineForPush m cred path = false := by
    simp [isAllowedPipelineForPush, if_neg h1, h2 path]
  refine ⟨hfalse, ?_⟩
  rw [loginLoop_append]
  simp [loginLoop, hfalse]

/-- Witness for C10: the invalid pattern `([` with the always-erroring
matcher; the bad credential is skipped, the good one still logs in. -/
theorem invalidPatternSkipsLogin_witness :
    isAllowedPipelineForPush alwaysErrorMatcher badPatternCredential fullPath0 = false ∧
    loginLoop alwaysErrorMatcher true fullPath0
        ([] ++ ("estafette".toList, badPatternCredential) ::
          [("extensions".toList, extensionsCredential)]) =
      loginLoop alwaysErrorMatcher true fullPath0 [] ++
        loginLoop alwaysErrorMatcher true fullPath0
          [("extensions".toList, extensionsCredential)] :=
  invalidPatternSkipsLogin alwaysErrorMatcher badPatternCredential fullPath0
    "estafette".toList [] [("extensions".toList, extensionsCredential)]
    (by decide) (fun _ => rfl)

/-! ## C3: vulnerability gate -/

/-- C3: the severity switch maps each level to the list of that level and
everything above it (`HIGH` gives `HIGH,CRITICAL`, also after lowercase
input, since the switch folds with `ToUpper`); the trivy invocation is made
with `--exit-code 15`, so a scan that finds vulnerabilities at the filtered
severities exits with status 15, which the exit-code policy treats as
fatal; exactly the message `exit status 1` (the tolerated unknown-OS
scanner quirk, compared case-insensitively) is downgraded to a warning and
every other non-nil error is fatal. -/
theorem vulnerabilityGate_spec :
    severityArgument "UNKNOWN".toList = "UNKNOWN,LOW,MEDIUM,HIGH,CRITICAL".toList ∧
    severityArgument "LOW".toList = "LOW,MEDIUM,HIGH,CRITICAL".toList ∧
    severityArgument "MEDIUM".toList = "MEDIUM,HIGH,CRITICAL".toList ∧
    severityArgument "HIGH".toList = "HIGH,CRITICAL".toList ∧
    severityArgument "high".toList = "HIGH,CRITICAL".toList ∧
    severityArgument "CRITICAL".toList = "CRITICAL".toList ∧
    trivyScanArgs (severityArgument "HIGH".toList) "image.tar".toList =
      ["--cache-dir".toList, "/trivy-cache".toList, "image".toList,
       "--severity".toList, "HIGH,CRITICAL".toList,
       "--light".toList, "--skip-update".toList, "--no-progress".toList,
       "--exit-code".toList, "15".toList, "--ignore-unfixed".toList,
       "--input".toList, "image.tar".toList] ∧
    trivyExitPolicy none = ScanOutcome.passed ∧
    trivyExitPolicy (some "exit status 15".toList) = ScanOutcome.failed ∧
    trivyExitPolicy (some "exit status 1".toList) = ScanOutcome.warned ∧
    (∀ msg : List Char, asciiEqualFold msg "exit status 1".toList = false →
      trivyExitPolicy (some msg) = ScanOutcome.failed) := by
  refine ⟨by decide, by decide, by decide, by decide, by decide, by decide,
    by decide, by decide, by decide, by decide, ?_⟩
  intro msg h
  simp only [trivyExitPolicy]
  rw [h]
  simp

/-- Witness for C3, instantiating the final quantified conjunct at the
exit status that the `--exit-code 15` flag produces on findings. -/
theorem vulnerabilityGate_spec_witness :
    asciiEqualFold "exit status 15".toList "exit status 1".toList = false ∧
    trivyExitPolicy (some "exit status 15".toList) = ScanOutcome.failed :=
  ⟨by decide,
   vulnerabilityGate_spec.2.2.2.2.2.2.2.2.2.2 "exit status 15".toList (by decide)⟩

/-! ## C4: duplicate (repository, tag) pairs across actions -/

/-- C4 counterexample: the claim says every action skips a (repository,
tag) pair already produced by the version-tag step for the same
repository.  With repositories `[r1, r2]`, additional tags `["1.0.0"]` and
version tag `1.0.0`, the push action pushes `(r2, 1.0.0)` twice (the skip
only checks the first repository), and the tag action does the same. -/
theorem pushAction_duplicate_pair :
    pushActionPushedTags ["r1".toList, "r2".toList] ["1.0.0".toList] "1.0.0".toList true =
      [("r1".toList, "1.0.0".toList), ("r2".toList, "1.0.0".toList),
       ("r2".toList, "1.0.0".toList)] ∧
    (pushActionPushedTags ["r1".toList, "r2".toList] ["1.0.0".toList] "1.0.0".toList
        true).count ("r2".toList, "1.0.0".toList) = 2 ∧
    tagActionPushedTags ["r1".toList, "r2".toList] ["1.0.0".toList] "1.0.0".toList =
      [("r1".toList, "1.0.0".toList), ("r2".toList, "1.0.0".toList),
       ("r2".toList, "1.0.0".toList)] := by
  refine ⟨by decide, by decide, by decide⟩

/-- C4 amended: the deduplication skip fires only for the first
repository.  In the push action an additional tag survives the skip iff it
is not (first repository, version tag); in the build action iff it is not
(first repository, version or cache tag); the tag action never skips; and
consequently, whenever the additional tags contain the version tag, every
repository other than the first gets its (repository, version tag) pair
pushed at least twice by the push action. -/
theorem tagSkip_amended :
    (∀ (repos tags : List (List Char)) (version r t : List Char), t ∈ tags →
        (t ∈ pushActionAdditionalTags repos tags version r ↔
          ¬(r = repos.headD [] ∧ t = version))) ∧
    (∀ (repos tags : List (List Char)) (version cacheTag r t : List Char), t ∈ tags →
        (t ∈ buildActionAdditionalTags repos tags version cacheTag r ↔
          ¬(r = repos.headD [] ∧ (t = version ∨ t = cacheTag)))) ∧
    (∀ (repos tags : List (List Char)) (version r t : List Char),
        r ∈ repos → t ∈ tags → (r, t) ∈ tagActionPushedTags repos tags version) ∧
    (∀ (r0 r1 : List Char) (rest tags : List (List Char)) (version : List Char),
        version ∈ tags → r1 ≠ r0 →
        2 ≤ (pushActionPushedTags (r0 :: r1 :: rest) tags version true).count
          (r1, version)) := by
  refine ⟨?_, ?_, ?_, ?_⟩
  · intro repos tags version r t ht
    simp only [pushActionAdditionalTags, List.mem_filter, ht, true_and,
      Bool.not_eq_true', decide_eq_false_iff_not]
  · intro repos tags version cacheTag r t ht
    simp only [buildActionAdditionalTags, List.mem_filter, ht, true_and,
      Bool.not_eq_true', decide_eq_false_iff_not]
  · intro repos tags version r t hr ht
    match repos, hr with
    | r0 :: rest, hr =>
      rcases List.mem_cons.mp hr with rfl | hr'
      · exact List.mem_append_left _ (List.mem_map_of_mem (fun t => (r, t)) ht)
      · refine List.mem_append_right _ ?_
        refine List.mem_flatMap.mpr ⟨r, hr', ?_⟩
        by_cases hv : t = version
        · subst hv; exact List.mem_cons_self _ _
        · exact List.mem_cons_of_mem _ (List.mem_map_of_mem (fun t => (r, t)) ht)
  · intro r0 r1 rest tags version hv hne
    have hdup : (r1, version) ∈
        (pushActionAdditionalTags (r0 :: r1 :: rest) tags version r1).map
          (fun t => (r1, t)) := by
      refine List.mem_map_of_mem (fun t => (r1, t)) ?_
      simp [pushActionAdditionalTags, List.mem_filter, hv, hne]
    have hone : 1 ≤
        ((pushActionAdditionalTags (r0 :: r1 :: rest) tags version r1).map
          (fun t => (r1, t))).count (r1, version) :=
      List.count_pos_iff.mpr hdup
    simp only [pushActionPushedTags, List.flatMap_cons, if_pos, List.count_append,
      List.singleton_append, List.count_cons_self, if_true]
    omega

/-- Witness for C4's amended statement at concrete repositories and
tags. -/
theorem tagSkip_amended_witness :
    ("dev".toList ∈ pushActionAdditionalTags ["r1".toList] ["dev".toList]
        "1.0.0".toList "r1".toList ↔
      ¬("r1".toList = (["r1".toList] : List (List Char)).headD [] ∧
        "dev".toList = "1.0.0".toList)) ∧
    ("dlc".toList ∈ buildActionAdditionalTags ["r1".toList] ["dlc".toList]
        "1.0.0".toList "dlc".toList "r1".toList ↔
      ¬("r1".toList = (["r1".toList] : List (List Char)).headD [] ∧
        ("dlc".toList = "1.0.0".toList ∨ "dlc".toList = "dlc".toList))) ∧
    ("r2".toList, "dev".toList) ∈ tagActionPushedTags ["r1".toList, "r2".toList]
      ["dev".toList] "1.0.0".toList ∧
    2 ≤ (pushActionPushedTags ["r1".toList, "r2".toList] ["1.0.0".toList]
        "1.0.0".toList true).count ("r2".toList, "1.0.0".toList) :=
  ⟨tagSkip_amended.1 ["r1".toList] ["dev".toList] "1.0.0".toList "r1".toList
      "dev".toList (by decide),
   tagSkip_amended.2.1 ["r1".toList] ["dlc".toList] "1.0.0".toList "dlc".toList
      "r1".toList "dlc".toList (by decide),
   tagSkip_amended.2.2.1 ["r1".toList, "r2".toList] ["dev".toList] "1.0.0".toList
      "r2".toList "dev".toList (by decide) (by decide),
   tagSkip_amended.2.2.2 "r1".toList "r2".toList [] ["1.0.0".toList] "1.0.0".toList
      (by decide) (by decide)⟩

/-! ## C7: the official-Docker-Hub flag -/

theorem matchFromLine_flag (s : List Char) (p : FromImage × List Char)
    (h : matchFromLine s = some p) :
    p.1.isOfficialDockerHubImage =
      ((p.1.imagePath.count '/' == 0) || p.1.imagePath.contains '$') := by
  simp only [matchFromLine] at h
  repeat' split at h
  all_goals cases h
  all_goals simp [mkFromImage]

theorem scanStagesAux_flag :
    ∀ (fuel : Nat) (b : Bool) (content : List Char),
      ∀ st ∈ scanStagesAux fuel b content,
        st.isOfficialDockerHubImage =
          ((st.imagePath.count '/' == 0) || st.imagePath.contains '$') := by
  intro fuel
  induction fuel with
  | zero => intro b content st hst; simp [scanStagesAux] at hst
  | succ n ih =>
    intro b content st hst
    match content with
    | [] => simp [scanStagesAux] at hst
    | c :: rest =>
      simp only [scanStagesAux] at hst
      by_cases hb : b = true
      · rw [if_pos hb] at hst
        rcases hm : matchFromLine (c :: rest) with _ | p
        · rw [hm] at hst
          exact ih _ _ st hst
        · rw [hm] at hst
          rcases List.mem_cons.mp hst with rfl | hst2
          · exact matchFromLine_flag _ _ hm
          · exact ih _ _ st hst2
      · rw [if_neg hb] at hst
        exact ih _ _ st hst

/-- C7: for every stage extracted from a Dockerfile, the
`isOfficialDockerHubImage` flag is true exactly when the image reference
contains no `/` or contains a `$` (an unexpanded variable placeholder);
concretely, `FROM nginx` yields one official-image stage with no alias. -/
theorem isOfficialDockerHubImage_iff :
    (∀ (content : List Char) (st : FromImage),
        st ∈ getFromImagePathsFromDockerfile content →
        (st.isOfficialDockerHubImage = true ↔
          ('/' ∉ st.imagePath ∨ '$' ∈ st.imagePath))) ∧
    getFromImagePathsFromDockerfile "FROM nginx".toList =
      [{ imagePath := "nginx".toList, stageName := [],
         isOfficialDockerHubImage := true }] := by
  refine ⟨?_, by decide⟩
  intro content st hst
  have hflag := scanStagesAux_flag (content.length + 1) true content st hst
  rw [hflag]
  simp [List.count_eq_zero, List.contains_iff_exists_mem_beq]

/-- Witness for C7 at the `FROM nginx` stage. -/
theorem isOfficialDockerHubImage_iff_witness :
    ({ imagePath := "nginx".toList, stageName := [],
       isOfficialDockerHubImage := true } : FromImage).isOfficialDockerHubImage = true ↔
      ('/' ∉ ("nginx".toList : List Char) ∨ '$' ∈ ("nginx".toList : List Char)) :=
  isOfficialDockerHubImage_iff.1 "FROM nginx".toList
    { imagePath := "nginx".toList, stageName := [], isOfficialDockerHubImage := true }
    (by decide)

/-! ## C8: two-stage extraction, case-insensitive, whitespace-tolerant -/

/-- C8: extracting from the two-stage Dockerfile yields exactly the two
stages in file order, the first with alias `builder` and a false
official-image flag, the second with no alias; the second conjunct shows
the per-line matching is case-insensitive and ignores leading and trailing
whitespace (lowercase `from`/`as`, surrounding blanks). -/
theorem extractStages_twoStage :
    getFromImagePathsFromDockerfile
        "FROM prom/prometheus:latest AS builder\nRUN echo hi\nFROM grafana/grafana:6.1.4".toList =
      [{ imagePath := "prom/prometheus:latest".toList, stageName := "builder".toList,
         isOfficialDockerHubImage := false },
       { imagePath := "grafana/grafana:6.1.4".toList, stageName := [],
         isOfficialDockerHubImage := false }] ∧
    getFromImagePathsFromDockerfile "  from  prom/prometheus:latest  as  builder  ".toList =
      [{ imagePath := "prom/prometheus:latest".toList, stageName := "builder".toList,
         isOfficialDockerHubImage := false }] := by
  refine ⟨by decide, by decide⟩

/-! ## C9: byte-order-mark stripping -/

/-- C9: the build action strips a byte-order-mark at the very start of the
Dockerfile before stage extraction, so a BOM followed by a FROM line still
yields that stage; the last conjunct shows the extraction really would
find nothing were the BOM left in place. -/
theorem bomTrim_spec :
    (∀ l : List Char, trimBOM ('\uFEFF' :: l) = l) ∧
    getFromImagePathsFromDockerfile (trimBOM ('\uFEFF' :: "FROM nginx".toList)) =
      [{ imagePath := "nginx".toList, stageName := [],
         isOfficialDockerHubImage := true }] ∧
    getFromImagePathsFromDockerfile ('\uFEFF' :: "FROM nginx".toList) = [] := by
  refine ⟨fun l => by simp [trimBOM], by decide, by decide⟩

end EstafetteDocker
